import Mathlib

/-!
Verification development for the Netezza handshake driver
(`NetezzaHandshake` in `lib/netezza-handshake.js`).

The driver is embedded shallowly: the server's byte stream is a
`List Nat` of byte values (the byte reader hands bytes out in strict
FIFO order, so the receive buffer and the not-yet-arrived bytes are
modelled as one list); every write the driver performs is recorded in
order as a `Write`; fallible phases return `Except HsError`.  The MD5
and SHA-256 digesters and the TLS engine are external collaborators of
the repository (Node's `crypto` and `tls` modules), so digests are
abstract function parameters carried in the configuration and the TLS
upgrade is modelled as succeeding in place.
-/

namespace Nz

/-- Byte values of the ASCII characters the protocol dispatches on:
78 is N, 77 is M, 69 is E, 83 is S, 82 is R, 75 is K, 90 is Z. -/
def chN : Nat := 78
def chM : Nat := 77
def chE : Nat := 69
def chS : Nat := 83
def chR : Nat := 82
def chK : Nat := 75
def chZ : Nat := 90

/-- UTF-8 bytes of an ASCII string literal. -/
def strBytes (s : String) : List Nat := s.data.map (fun c => c.toNat)

/-- `packShort` in the source: 16-bit big-endian encoding. -/
def packShort (v : Nat) : List Nat := [v % 65536 / 256, v % 256]

/-- `packInt` in the source: 32-bit big-endian encoding. -/
def packInt (v : Nat) : List Nat :=
  [v % 4294967296 / 16777216, v % 16777216 / 65536, v % 65536 / 256, v % 256]

/-- `unpackInt` in the source: read a 32-bit big-endian integer from the
first four bytes. -/
def beInt32 : List Nat → Nat
  | a :: b :: c :: d :: _ => ((a * 256 + b) * 256 + c) * 256 + d
  | _ => 0

/-- One write performed by the driver.  Every write site in the source
sends `packInt(payload.length + 4)` followed by the payload; opcoded
frames have `packShort(opcode)` prefixed to the body, while the
credential write in `authenticate` has no opcode. -/
inductive Write where
  | frame (opcode : Nat) (body : List Nat)
  | raw (body : List Nat)
deriving DecidableEq, Repr

/-- The payload placed after the length prefix. -/
def Write.payload : Write → List Nat
  | .frame op body => packShort op ++ body
  | .raw body => body

/-- The exact bytes placed on the wire for one write:
`len(int32 BE) ∥ payload`, where `len` counts itself. -/
def Write.wire (w : Write) : List Nat :=
  packInt (w.payload.length + 4) ++ w.payload

/-- The opcode of an opcoded frame; credential writes have none. -/
def Write.opcodeOf : Write → Option Nat
  | .frame op _ => some op
  | .raw _ => none

/-- Number of opcoded frames with opcode `op` in a write trace. -/
def countOp (op : Nat) (ws : List Write) : Nat :=
  (ws.filter (fun w => w.opcodeOf == some op)).length

/-- Error outcomes of the handshake, one per `throw` site (plus
`phaseFailed` for the `return false` paths that `startup` turns into a
generic failure, and `readIncomplete` for a read that cannot be
satisfied because the stream ended or timed out). -/
inductive HsError where
  | readIncomplete
  | badAttributeValue
  | badProtocol
  | unsupportedVersion
  | databaseRejected
  | phaseFailed
  | sslRejected
  | sslBadResponse
  | connectionFailedDuringHandshake
  | unexpectedMessage
  | unsupportedAuth
  | serverError (text : List Nat)
deriving DecidableEq, Repr

/-- Driver configuration: the `startup` arguments together with the
audit strings and pid snapshotted at construction, and the consumed
crypto collaborators (abstract digest functions). -/
structure Config where
  database : Option (List Nat)
  securityLevel : Nat
  user : List Nat
  password : List Nat
  pgOptions : Option (List Nat)
  appName : List Nat
  clientOS : List Nat
  clientHostName : List Nat
  clientOSUser : List Nat
  pid : Nat
  md5 : List Nat → List Nat
  sha256 : List Nat → List Nat

/-- Successful result of `startup`: negotiated versions, whether the
transport was TLS-upgraded, the full ordered write trace, and the
read-ahead bytes handed back to the caller. -/
structure StartupOk where
  hsVersion : Nat
  protocol1 : Nat
  protocol2 : Nat
  tlsUpgraded : Bool
  writes : List Write
  remainingBuffer : List Nat
deriving DecidableEq, Repr

/-- `negotiateHandshake`: starting from version 6, send a
`CLIENT_BEGIN` (opcode 1) frame with the 16-bit version and react to
the one-byte reply; on acceptance (`N`) record the version and the
`protocol2 = 0` sentinel; on a counter-offer (`M`) read a digit byte,
move to that version and retry; `E` and other bytes are terminal.
Returns `(hsVersion, protocol2 sentinel, remaining input, writes)`. -/
def negotiateHandshake (version : Nat) (input : List Nat) :
    Except HsError (Nat × Nat × List Nat × List Write) :=
  match input with
  | [] => .error .readIncomplete
  | r :: rest =>
    if r = chN then
      .ok (version, 0, rest, [Write.frame 1 (packShort version)])
    else if r = chM then
      match rest with
      | [] => .error .readIncomplete
      | d :: rest2 =>
        if d = 50 ∨ d = 51 ∨ d = 52 ∨ d = 53 then
          match negotiateHandshake (d - 48) rest2 with
          | .ok (v, p2, rem, ws) =>
            .ok (v, p2, rem, Write.frame 1 (packShort version) :: ws)
          | .error e => .error e
        else .error .unsupportedVersion
    else if r = chE then .error .badAttributeValue
    else .error .badProtocol

/-- Number of `M` counter-offers at the head of the server stream,
i.e. the number of extra negotiation iterations a run performs. -/
def mCount : List Nat → Nat
  | 77 :: d :: rest =>
    if d = 50 ∨ d = 51 ∨ d = 52 ∨ d = 53 then mCount rest + 1 else 0
  | _ => 0

/-- `sendDatabase`: skipped when no database was supplied; otherwise a
`DB` (opcode 2) frame with the null-terminated name, expecting `N`. -/
def sendDatabase (database : Option (List Nat)) (input : List Nat) :
    Except HsError (List Nat × List Write) :=
  match database with
  | none => .ok (input, [])
  | some db =>
    match input with
    | [] => .error .readIncomplete
    | r :: rest =>
      if r = chN then .ok (rest, [Write.frame 2 (db ++ [0])])
      else if r = chE then .error .databaseRejected
      else .error .phaseFailed

/-- `setNextDataProtocol`: advance `protocol2` along 0 → 5 → 4 → 3 and
fix `protocol1 = 3`; past 3 the walk is exhausted. -/
def setNextDataProtocol (protocol2 : Nat) : Option (Nat × Nat) :=
  if protocol2 = 0 then some (3, 5)
  else if protocol2 = 5 then some (3, 4)
  else if protocol2 = 4 then some (3, 3)
  else none

/-- `secureSession`: send `SSL_NEGOTIATE` (opcode 11) with the 32-bit
security level and react to the one-byte reply.  The source reacts to
the reply only, never to the requested level: `N` continues in
cleartext, `S` sends `SSL_CONNECT` (opcode 12) and performs the
in-band TLS upgrade (modelled as succeeding, with buffered bytes
preserved), `E` and other bytes are terminal.  Returns whether the
transport was upgraded. -/
def secureSession (securityLevel : Nat) (input : List Nat) :
    Except HsError (Bool × List Nat × List Write) :=
  match input with
  | [] => .error .readIncomplete
  | r :: rest =>
    if r = chN then .ok (false, rest, [Write.frame 11 (packInt securityLevel)])
    else if r = chS then
      .ok (true, rest,
        [Write.frame 11 (packInt securityLevel), Write.frame 12 (packInt securityLevel)])
    else if r = chE then .error .sslRejected
    else .error .sslBadResponse

/-- One metadata step of `sendHandshakeVersion2/4`: an opcode and an
optional body (`none` bodies other than `CLIENT_DONE` are skipped). -/
abbrev MetaStep := Nat × Option (List Nat)

/-- The shared metadata loop body of `sendHandshakeVersion2` and
`sendHandshakeVersion4`: skip `none`-data steps other than
`CLIENT_DONE`, write each frame, return right after writing
`CLIENT_DONE` (opcode 1000) without reading a reply, and otherwise
require a one-byte `N` acknowledgment (`E` is fatal, anything else
fails the phase). -/
def runSteps : List MetaStep → List Nat → Except HsError (List Nat × List Write)
  | [], input => .ok (input, [])
  | (op, none) :: rest, input =>
    if op = 1000 then .ok (input, [Write.frame op []])
    else runSteps rest input
  | (op, some d) :: rest, input =>
    if op = 1000 then .ok (input, [Write.frame op d])
    else
      match input with
      | [] => .error .readIncomplete
      | b :: input2 =>
        if b = chN then
          match runSteps rest input2 with
          | .ok (rem, ws) => .ok (rem, Write.frame op d :: ws)
          | .error e => .error e
        else if b = chE then .error .connectionFailedDuringHandshake
        else .error .phaseFailed

/-- Step list of `sendHandshakeVersion2` (versions 2, 3, 5): USER,
PROTOCOL, REMOTE_PID, OPTIONS (skipped when absent — the source's
falsy test also skips an empty options string), CLIENT_TYPE, then
VARLENA64 for versions 5 and 6, then CLIENT_DONE. -/
def steps2 (cfg : Config) (p1 p2 hv : Nat) : List MetaStep :=
  [(3, some (cfg.user ++ [0])),
   (9, some (packShort p1 ++ packShort p2)),
   (6, some (packInt cfg.pid)),
   (4, cfg.pgOptions.map (fun o => o ++ [0])),
   (8, some (packShort 15))]
  ++ (if hv = 5 ∨ hv = 6 then [(17, some (packShort 1))] else [])
  ++ [(1000, none)]

/-- Step list of `sendHandshakeVersion4` (versions 4, 6): USER,
APPNAME, CLIENT_OS, CLIENT_HOST_NAME, CLIENT_OS_USER, PROTOCOL,
REMOTE_PID, OPTIONS (skipped when absent), CLIENT_TYPE, then VARLENA64
for versions 5 and 6, then CLIENT_DONE. -/
def steps4 (cfg : Config) (p1 p2 hv : Nat) : List MetaStep :=
  [(3, some (cfg.user ++ [0])),
   (13, some (cfg.appName ++ [0])),
   (14, some (cfg.clientOS ++ [0])),
   (15, some (cfg.clientHostName ++ [0])),
   (16, some (cfg.clientOSUser ++ [0])),
   (9, some (packShort p1 ++ packShort p2)),
   (6, some (packInt cfg.pid)),
   (4, cfg.pgOptions.map (fun o => o ++ [0])),
   (8, some (packShort 15))]
  ++ (if hv = 5 ∨ hv = 6 then [(17, some (packShort 1))] else [])
  ++ [(1000, none)]

/-- `sendHandshakeVersion2` in the source. -/
def sendHandshakeVersion2 (cfg : Config) (p1 p2 hv : Nat) (input : List Nat) :
    Except HsError (List Nat × List Write) :=
  runSteps (steps2 cfg p1 p2 hv) input

/-- `sendHandshakeVersion4` in the source. -/
def sendHandshakeVersion4 (cfg : Config) (p1 p2 hv : Nat) (input : List Nat) :
    Except HsError (List Nat × List Write) :=
  runSteps (steps4 cfg p1 p2 hv) input

/-- The version dispatch at the end of `sendHandshakeInfo`: versions
6 and 4 use the long metadata stream, versions 5, 3 and 2 the short
one, anything else sends nothing. -/
def sendMetadata (cfg : Config) (hv p1 p2 : Nat) (input : List Nat) :
    Except HsError (List Nat × List Write) :=
  if hv = 6 ∨ hv = 4 then sendHandshakeVersion4 cfg p1 p2 hv input
  else if hv = 5 ∨ hv = 3 ∨ hv = 2 then sendHandshakeVersion2 cfg p1 p2 hv input
  else .ok (input, [])

/-- `sendHandshakeInfo`: database selection, protocol advance, TLS
negotiation, then the version-specific metadata stream.  Returns
`(protocol1, protocol2, tlsUpgraded, remaining input, writes)`. -/
def sendHandshakeInfo (cfg : Config) (hv p2sentinel : Nat) (input : List Nat) :
    Except HsError (Nat × Nat × Bool × List Nat × List Write) :=
  match sendDatabase cfg.database input with
  | .error e => .error e
  | .ok (i1, ws1) =>
    match setNextDataProtocol p2sentinel with
    | none => .error .phaseFailed
    | some (p1, p2) =>
      match secureSession cfg.securityLevel i1 with
      | .error e => .error e
      | .ok (tls, i2, ws2) =>
        match sendMetadata cfg hv p1 p2 i2 with
        | .error e => .error e
        | .ok (i3, ws3) => .ok (p1, p2, tls, i3, ws1 ++ ws2 ++ ws3)

/-- Base64 alphabet (A-Z, a-z, 0-9, +, /) as ASCII byte values. -/
def base64Char (n : Nat) : Nat :=
  if n < 26 then 65 + n
  else if n < 52 then 97 + (n - 26)
  else if n < 62 then 48 + (n - 52)
  else if n = 62 then 43
  else 47

/-- Standard base64 encoding of a byte list, with `=` (61) padding. -/
def base64Encode : List Nat → List Nat
  | [] => []
  | [a] => [base64Char (a / 4), base64Char (a % 4 * 16), 61, 61]
  | [a, b] => [base64Char (a / 4), base64Char (a % 4 * 16 + b / 16),
               base64Char (b % 16 * 4), 61]
  | a :: b :: c :: rest =>
    base64Char (a / 4) :: base64Char (a % 4 * 16 + b / 16) ::
    base64Char (b % 16 * 4 + c / 64) :: base64Char (c % 64) ::
    base64Encode rest

/-- The source's `.replace` of a trailing run of `=` with nothing. -/
def stripTrailingEq (l : List Nat) : List Nat :=
  (l.reverse.dropWhile (fun x => x == 61)).reverse

/-- The source's global removal of every NUL byte from the error
text (`replace` with a global NUL pattern). -/
def removeNulls (l : List Nat) : List Nat :=
  l.filter (fun x => x != 0)

/-- The dispatch on the 32-bit authentication code: 0 sends nothing,
3 sends the null-terminated password, 5 and 6 read a 2-byte salt and
send the null-terminated, `=`-stripped base64 of the digest of
salt ∥ password; other codes are unsupported.  Credential writes carry
no opcode. -/
def authRespond (cfg : Config) (code : Nat) (input : List Nat) :
    Except HsError (List Nat × List Write) :=
  if code = 0 then .ok (input, [])
  else if code = 3 then .ok (input, [Write.raw (cfg.password ++ [0])])
  else if code = 5 then
    match input with
    | s1 :: s2 :: rest =>
      .ok (rest,
        [Write.raw (stripTrailingEq (base64Encode (cfg.md5 ([s1, s2] ++ cfg.password))) ++ [0])])
    | _ => .error .readIncomplete
  else if code = 6 then
    match input with
    | s1 :: s2 :: rest =>
      .ok (rest,
        [Write.raw (stripTrailingEq (base64Encode (cfg.sha256 ([s1, s2] ++ cfg.password))) ++ [0])])
    | _ => .error .readIncomplete
  else .error .unsupportedAuth

/-- After the optional leading `N`, the byte must be `R`; then the
32-bit authentication code is read and dispatched. -/
def authAfterType (cfg : Config) (b : Nat) (input : List Nat) :
    Except HsError (List Nat × List Write) :=
  if b = chR then
    match input with
    | c1 :: c2 :: c3 :: c4 :: rest => authRespond cfg (beInt32 [c1, c2, c3, c4]) rest
    | _ => .error .readIncomplete
  else .error .unexpectedMessage

/-- `authenticate`: read one byte, skip a single leading `N`
acknowledgment, then handle the authentication request. -/
def authenticate (cfg : Config) (input : List Nat) :
    Except HsError (List Nat × List Write) :=
  match input with
  | [] => .error .readIncomplete
  | b0 :: r0 =>
    if b0 = chN then
      match r0 with
      | [] => .error .readIncomplete
      | b1 :: r1 => authAfterType cfg b1 r1
    else authAfterType cfg b0 r0

/-- The loop body of `waitConnectionComplete`, with an explicit fuel
argument so the recursion is structural: read one message-type byte
per iteration.  Types other than `R`, `N`, `E` first discard 8 filler
bytes.  `R` reads a 4-byte code and continues; `K` reads 4-byte pid
and key after the filler and continues; `Z` terminates successfully
returning the read-ahead bytes; `N` reads a 4-byte length and
continues; `E` reads exactly 2000 bytes (the source's `readBytes(2000)`
waits until 2000 bytes are buffered, so fewer available bytes end in a
timeout or stream-end failure, modelled as `readIncomplete`), removes
every NUL and fails with the server text; unknown types continue.
Each iteration consumes at least five bytes, so the fuel
`waitConnectionComplete` supplies is never exhausted
(`drainFuel_irrelevant`). -/
def drainFuel : Nat → List Nat → Except HsError (List Nat)
  | 0, _ => .error .readIncomplete
  | fuel + 1, l =>
    match l with
    | [] => .error .readIncomplete
    | t :: rest =>
      if t = chR ∨ t = chN then
        if 4 ≤ rest.length then drainFuel fuel (rest.drop 4)
        else .error .readIncomplete
      else if t = chE then
        if 2000 ≤ rest.length then .error (.serverError (removeNulls (rest.take 2000)))
        else .error .readIncomplete
      else
        if 8 ≤ rest.length then
          if t = chK then
            if 16 ≤ rest.length then drainFuel fuel (rest.drop 16)
            else .error .readIncomplete
          else if t = chZ then .ok (rest.drop 8)
          else drainFuel fuel (rest.drop 8)
        else .error .readIncomplete

/-- `waitConnectionComplete`: run the completion drain over the
remaining server bytes. -/
def waitConnectionComplete (l : List Nat) : Except HsError (List Nat) :=
  drainFuel (l.length + 1) l

/-- `startup`: the four phases in order.  On success the write trace
is the concatenation of the phase traces and `remainingBuffer` holds
the bytes read ahead past the ready-for-query message. -/
def startup (cfg : Config) (input : List Nat) : Except HsError StartupOk :=
  match negotiateHandshake 6 input with
  | .error e => .error e
  | .ok (hv, p2s, i1, ws1) =>
    match sendHandshakeInfo cfg hv p2s i1 with
    | .error e => .error e
    | .ok (p1, p2, tls, i2, ws2) =>
      match authenticate cfg i2 with
      | .error e => .error e
      | .ok (i3, ws3) =>
        match waitConnectionComplete i3 with
        | .error e => .error e
        | .ok i4 => .ok ⟨hv, p1, p2, tls, ws1 ++ ws2 ++ ws3, i4⟩

/-- The writes the metadata loop performs for a given step list:
`none`-data steps other than `CLIENT_DONE` are skipped and the loop
stops right after `CLIENT_DONE`. -/
def effectiveWrites : List MetaStep → List Write
  | [] => []
  | (op, none) :: rest =>
    if op = 1000 then [Write.frame op []] else effectiveWrites rest
  | (op, some d) :: rest =>
    if op = 1000 then [Write.frame op d] else Write.frame op d :: effectiveWrites rest

/-- Number of acknowledgment bytes the metadata loop reads for a given
step list (one per effective frame except `CLIENT_DONE`). -/
def ackEff : List MetaStep → Nat
  | [] => 0
  | (op, none) :: rest => if op = 1000 then 0 else ackEff rest
  | (op, some _) :: rest => if op = 1000 then 0 else 1 + ackEff rest

/-- Modelled from the spec: the metadata frame sequence of §4.3(d)
in the spec's own wording — for `hsVersion ∈ {4, 6}` the frames USER,
APPNAME, CLIENT_OS, CLIENT_HOST_NAME, CLIENT_OS_USER, PROTOCOL,
REMOTE_PID, OPTIONS (omitted when absent), CLIENT_TYPE; for the other
versions only USER, PROTOCOL, REMOTE_PID, OPTIONS, CLIENT_TYPE; for
`hsVersion ∈ {5, 6}` additionally VARLENA64_ENABLED; always
CLIENT_DONE (opcode 1000, empty body) last.  Used to compare the
implemented metadata stream against the specified one. -/
def specMetadataFrames (cfg : Config) (hv p1 p2 : Nat) : List Write :=
  (if hv = 4 ∨ hv = 6 then
    [Write.frame 3 (cfg.user ++ [0]),
     Write.frame 13 (cfg.appName ++ [0]),
     Write.frame 14 (cfg.clientOS ++ [0]),
     Write.frame 15 (cfg.clientHostName ++ [0]),
     Write.frame 16 (cfg.clientOSUser ++ [0]),
     Write.frame 9 (packShort p1 ++ packShort p2),
     Write.frame 6 (packInt cfg.pid)] ++
    (match cfg.pgOptions with
     | some o => [Write.frame 4 (o ++ [0])]
     | none => []) ++
    [Write.frame 8 (packShort 15)]
  else
    [Write.frame 3 (cfg.user ++ [0]),
     Write.frame 9 (packShort p1 ++ packShort p2),
     Write.frame 6 (packInt cfg.pid)] ++
    (match cfg.pgOptions with
     | some o => [Write.frame 4 (o ++ [0])]
     | none => []) ++
    [Write.frame 8 (packShort 15)]) ++
  (if hv = 5 ∨ hv = 6 then [Write.frame 17 (packShort 1)] else []) ++
  [Write.frame 1000 []]

/-- Modelled from the claim wording for the notice case of the
completion drain: a variant of `drainFuel` whose `N` handling discards
8 filler bytes and then a 4-byte length; every other message type is
handled exactly as in `drainFuel`.  Used only to compare the claimed
notice handling with the implemented one. -/
def drainFuelSpecC9 : Nat → List Nat → Except HsError (List Nat)
  | 0, _ => .error .readIncomplete
  | fuel + 1, l =>
    match l with
    | [] => .error .readIncomplete
    | t :: rest =>
      if t = chR then
        if 4 ≤ rest.length then drainFuelSpecC9 fuel (rest.drop 4)
        else .error .readIncomplete
      else if t = chN then
        if 12 ≤ rest.length then drainFuelSpecC9 fuel (rest.drop 12)
        else .error .readIncomplete
      else if t = chE then
        if 2000 ≤ rest.length then .error (.serverError (removeNulls (rest.take 2000)))
        else .error .readIncomplete
      else
        if 8 ≤ rest.length then
          if t = chK then
            if 16 ≤ rest.length then drainFuelSpecC9 fuel (rest.drop 16)
            else .error .readIncomplete
          else if t = chZ then .ok (rest.drop 8)
          else drainFuelSpecC9 fuel (rest.drop 8)
        else .error .readIncomplete

/-- The claim-worded completion drain, run with sufficient fuel. -/
def waitConnectionCompleteSpecC9 (l : List Nat) : Except HsError (List Nat) :=
  drainFuelSpecC9 (l.length + 1) l

/-- A concrete configuration used by the witness runs. -/
def exCfg : Config :=
  ⟨some (strBytes "mydb"), 0, strBytes "u", strBytes "pw", none,
   strBytes "app", strBytes "linux", strBytes "host", strBytes "osu", 42,
   fun _ => [1, 2, 3], fun _ => [4, 5, 6]⟩

/-- `exCfg` with security level 3 (spec: only secured). -/
def cfg3 : Config :=
  ⟨some (strBytes "mydb"), 3, strBytes "u", strBytes "pw", none,
   strBytes "app", strBytes "linux", strBytes "host", strBytes "osu", 42,
   fun _ => [1, 2, 3], fun _ => [4, 5, 6]⟩

/-- `exCfg` with security level 1 (spec: only unsecured). -/
def cfg1 : Config :=
  ⟨some (strBytes "mydb"), 1, strBytes "u", strBytes "pw", none,
   strBytes "app", strBytes "linux", strBytes "host", strBytes "osu", 42,
   fun _ => [1, 2, 3], fun _ => [4, 5, 6]⟩

/-- A server stream for a full successful run: accept version 6,
acknowledge the database, reply `N` to SSL, acknowledge the nine
metadata frames, request plain-password authentication, then confirm
authentication, send backend key data and ready-for-query, with three
read-ahead bytes after the terminator. -/
def exInput : List Nat :=
  [chN] ++ [chN] ++ [chN] ++ List.replicate 9 chN
    ++ [chR, 0, 0, 0, 3] ++ [chR, 0, 0, 0, 0]
    ++ (chK :: (List.replicate 8 0 ++ [0, 0, 0, 7, 0, 0, 0, 9]))
    ++ (chZ :: List.replicate 8 0) ++ [1, 2, 3]

/-- Like `exInput` but with an `S` reply to `SSL_NEGOTIATE`. -/
def inputS : List Nat :=
  [chN] ++ [chN] ++ [chS] ++ List.replicate 9 chN
    ++ [chR, 0, 0, 0, 3] ++ [chR, 0, 0, 0, 0]
    ++ (chK :: (List.replicate 8 0 ++ [0, 0, 0, 7, 0, 0, 0, 9]))
    ++ (chZ :: List.replicate 8 0) ++ [1, 2, 3]

/-- A server stream that counter-offers version 2 before accepting,
then completes a successful run over the short metadata stream. -/
def inputCounterOffer : List Nat :=
  [chM, 50] ++ [chN] ++ [chN] ++ [chN] ++ List.replicate 4 chN
    ++ [chR, 0, 0, 0, 0] ++ (chZ :: List.replicate 8 0)

/-- The result of `startup exCfg exInput`, spelled out. -/
def exRes : StartupOk :=
  ⟨6, 3, 5, false,
   [Write.frame 1 [0, 6], Write.frame 2 [109, 121, 100, 98, 0],
    Write.frame 11 [0, 0, 0, 0], Write.frame 3 [117, 0],
    Write.frame 13 [97, 112, 112, 0], Write.frame 14 [108, 105, 110, 117, 120, 0],
    Write.frame 15 [104, 111, 115, 116, 0], Write.frame 16 [111, 115, 117, 0],
    Write.frame 9 [0, 3, 0, 5], Write.frame 6 [0, 0, 0, 42],
    Write.frame 8 [0, 15], Write.frame 17 [0, 1],
    Write.frame 1000 [], Write.raw [112, 119, 0]],
   [1, 2, 3]⟩

end Nz

deriving instance DecidableEq for Except

namespace Nz

lemma beInt32_packInt_append (v : Nat) (tail : List Nat) (h : v < 4294967296) :
    beInt32 (packInt v ++ tail) = v := by
  simp only [packInt, beInt32, List.cons_append, List.nil_append]
  omega

lemma wire_length_decode (w : Write) (h : w.wire.length < 4294967296) :
    beInt32 w.wire = w.wire.length := by
  have hl : w.wire.length = w.payload.length + 4 := by
    simp [Write.wire, packInt]
  rw [hl, Write.wire]
  exact beInt32_packInt_append _ _ (by rw [hl] at h; omega)

lemma countOp_cons_frame (op op2 : Nat) (b : List Nat) (ws : List Write) :
    countOp op (Write.frame op2 b :: ws) =
      (if op2 = op then 1 else 0) + countOp op ws := by
  by_cases h : op2 = op <;> simp [countOp, Write.opcodeOf, h, Nat.add_comm]

lemma countOp_cons_raw (op : Nat) (b : List Nat) (ws : List Write) :
    countOp op (Write.raw b :: ws) = countOp op ws := by
  simp [countOp, Write.opcodeOf]

lemma countOp_append (op : Nat) (ws1 ws2 : List Write) :
    countOp op (ws1 ++ ws2) = countOp op ws1 + countOp op ws2 := by
  simp [countOp, List.filter_append]

lemma mCount_cons_ne (a : Nat) (rest : List Nat) (h : a ≠ 77) :
    mCount (a :: rest) = 0 := by
  rw [mCount.eq_def]
  rcases rest with _ | ⟨b, r⟩ <;> simp_all

lemma mCount_cons_M (d : Nat) (rest : List Nat)
    (hd : d = 50 ∨ d = 51 ∨ d = 52 ∨ d = 53) :
    mCount (77 :: d :: rest) = mCount rest + 1 := by
  rw [mCount.eq_def]
  simp [hd]

lemma negotiateHandshake_ok (v : Nat) (input : List Nat) (hv p2s : Nat)
    (rem : List Nat) (ws : List Write)
    (h : negotiateHandshake v input = .ok (hv, p2s, rem, ws)) :
    p2s = 0 ∧ (hv = v ∨ hv = 2 ∨ hv = 3 ∨ hv = 4 ∨ hv = 5) ∧
    ws.length = mCount input + 1 ∧
    countOp 1 ws = ws.length ∧ countOp 1000 ws = 0 ∧
    ∃ c, input = c ++ rem ∧ c.length = 2 * mCount input + 1 := by
  induction v, input using negotiateHandshake.induct generalizing hv p2s rem ws with
  | case1 version =>
    simp [negotiateHandshake] at h
  | case2 version rest2 =>
    rw [negotiateHandshake.eq_def] at h
    norm_num [chN, chM, chE] at h
    obtain ⟨h1, h2, h3, h4⟩ := h
    subst h1; subst h2; subst h3; subst h4
    refine ⟨rfl, Or.inl rfl, ?_, ?_, ?_, [chN], by simp, ?_⟩ <;>
      simp [mCount_cons_ne, chN, countOp, Write.opcodeOf]
  | case3 version hne =>
    rw [negotiateHandshake.eq_def] at h
    norm_num [chN, chM, chE] at h
    simp at h
  | case4 version d rest2 hd v' p2' rem' ws' hrec hne ih =>
    obtain ⟨ih1, ih2, ih3, ih4, ih5, c, hc, hclen⟩ := ih v' p2' rem' ws' hrec
    rw [negotiateHandshake.eq_def] at h
    norm_num [chN, chM, chE] at h
    rw [if_pos hd, hrec] at h
    simp only [Except.ok.injEq, Prod.mk.injEq] at h
    obtain ⟨h1, h2, h3, h4⟩ := h
    subst h1; subst h2; subst h3; subst h4
    have hm : mCount (chM :: d :: rest2) = mCount rest2 + 1 := mCount_cons_M d rest2 hd
    refine ⟨ih1, ?_, ?_, ?_, ?_, (chM :: d :: c), by simp [hc], ?_⟩
    · rcases ih2 with hx | hx
      · subst hx; right; omega
      · exact Or.inr hx
    · rw [hm]; simp [List.length_cons, ih3]
    · rw [countOp_cons_frame]; simp [ih4, Nat.add_comm]
    · rw [countOp_cons_frame]; simp [ih5]
    · rw [hm]; simp only [List.length_cons, hclen]; omega
  | case5 version d rest2 hd e herr hne ih =>
    rw [negotiateHandshake.eq_def] at h
    norm_num [chN, chM, chE] at h
    rw [if_pos hd, herr] at h
    exact absurd h (by simp)
  | case6 version d rest2 hd hne =>
    rw [negotiateHandshake.eq_def] at h
    norm_num [chN, chM, chE] at h
    rw [if_neg hd] at h
    exact absurd h (by simp)
  | case7 version rest2 h1 h2 =>
    rw [negotiateHandshake.eq_def] at h
    norm_num [chN, chM, chE] at h
    simp at h
  | case8 version d rest2 h1 h2 h3 =>
    rw [negotiateHandshake.eq_def] at h
    simp only [chN, chM, chE] at h h1 h2 h3
    simp [h1, h2, h3] at h

lemma runSteps_ok (steps : List MetaStep) (input rem : List Nat) (ws : List Write)
    (h : runSteps steps input = .ok (rem, ws)) :
    ws = effectiveWrites steps ∧ input = List.replicate (ackEff steps) chN ++ rem := by
  induction steps generalizing input rem ws with
  | nil =>
    simp [runSteps] at h
    obtain ⟨h1, h2⟩ := h
    subst h1; subst h2
    simp [effectiveWrites, ackEff]
  | cons st rest ih =>
    obtain ⟨op, d⟩ := st
    cases d with
    | none =>
      rw [runSteps.eq_def] at h
      dsimp only at h
      by_cases hop : op = 1000
      · subst hop
        simp at h
        obtain ⟨h1, h2⟩ := h
        subst h1; subst h2
        simp [effectiveWrites, ackEff]
      · rw [if_neg hop] at h
        obtain ⟨ihw, ihi⟩ := ih input rem ws h
        simp [effectiveWrites, ackEff, hop, ihw, ihi]
    | some b =>
      rw [runSteps.eq_def] at h
      dsimp only at h
      by_cases hop : op = 1000
      · subst hop
        simp at h
        obtain ⟨h1, h2⟩ := h
        subst h1; subst h2
        simp [effectiveWrites, ackEff]
      · rw [if_neg hop] at h
        cases input with
        | nil => simp at h
        | cons x xs =>
          dsimp only at h
          by_cases hx : x = chN
          · subst hx
            simp at h
            cases hrec : runSteps rest xs with
            | error e => rw [hrec] at h; simp at h
            | ok pr =>
              obtain ⟨rem', ws'⟩ := pr
              rw [hrec] at h
              simp at h
              obtain ⟨h1, h2⟩ := h
              obtain ⟨ihw, ihi⟩ := ih xs rem' ws' hrec
              subst h1
              refine ⟨?_, ?_⟩
              · simp [effectiveWrites, hop, ihw, ← h2]
              · rw [ihi]
                simp [ackEff, hop, Nat.add_comm, List.replicate_succ]
          · rw [if_neg hx] at h
            by_cases he : x = chE
            · rw [if_pos he] at h; simp at h
            · rw [if_neg he] at h; simp at h

lemma drainFuel_congr (f1 : Nat) : ∀ (f2 : Nat) (l : List Nat),
    l.length < f1 → l.length < f2 → drainFuel f1 l = drainFuel f2 l := by
  induction f1 with
  | zero => intro f2 l h1 h2; omega
  | succ f ih =>
    intro f2 l h1 h2
    cases f2 with
    | zero => omega
    | succ g =>
      rw [drainFuel.eq_def, drainFuel.eq_def]
      cases l with
      | nil => rfl
      | cons t rest =>
        dsimp only
        by_cases hRN : t = chR ∨ t = chN
        · rw [if_pos hRN, if_pos hRN]
          by_cases h4 : 4 ≤ rest.length
          · rw [if_pos h4, if_pos h4]
            exact ih g _ (by simp at h1 ⊢; omega) (by simp at h2 ⊢; omega)
          · rw [if_neg h4, if_neg h4]
        · rw [if_neg hRN, if_neg hRN]
          by_cases hE : t = chE
          · rw [if_pos hE, if_pos hE]
          · rw [if_neg hE, if_neg hE]
            by_cases h8 : 8 ≤ rest.length
            · rw [if_pos h8, if_pos h8]
              by_cases hK : t = chK
              · rw [if_pos hK, if_pos hK]
                by_cases h16 : 16 ≤ rest.length
                · rw [if_pos h16, if_pos h16]
                  exact ih g _ (by simp at h1 ⊢; omega) (by simp at h2 ⊢; omega)
                · rw [if_neg h16, if_neg h16]
              · rw [if_neg hK, if_neg hK]
                by_cases hZ : t = chZ
                · rw [if_pos hZ, if_pos hZ]
                · rw [if_neg hZ, if_neg hZ]
                  exact ih g _ (by simp at h1 ⊢; omega) (by simp at h2 ⊢; omega)
            · rw [if_neg h8, if_neg h8]

lemma drainFuel_irrelevant (fuel : Nat) (l : List Nat) (h : l.length < fuel) :
    drainFuel fuel l = waitConnectionComplete l :=
  drainFuel_congr fuel (l.length + 1) l h (by omega)

lemma drainFuel_ok_decomp (fuel : Nat) : ∀ (l rem : List Nat),
    drainFuel fuel l = .ok rem →
    ∃ pre filler, l = pre ++ chZ :: (filler ++ rem) ∧ filler.length = 8 := by
  induction fuel with
  | zero => intro l rem h; simp [drainFuel] at h
  | succ f ih =>
    intro l rem h
    rw [drainFuel.eq_def] at h
    cases l with
    | nil => simp at h
    | cons t rest =>
      dsimp only at h
      by_cases hRN : t = chR ∨ t = chN
      · rw [if_pos hRN] at h
        by_cases h4 : 4 ≤ rest.length
        · rw [if_pos h4] at h
          obtain ⟨pre, filler, hp, hf⟩ := ih _ _ h
          have hsplit : rest = rest.take 4 ++ rest.drop 4 :=
            (List.take_append_drop 4 rest).symm
          refine ⟨t :: rest.take 4 ++ pre, filler, ?_, hf⟩
          nth_rewrite 1 [hsplit]
          rw [hp]
          simp
        · rw [if_neg h4] at h; simp at h
      · rw [if_neg hRN] at h
        by_cases hE : t = chE
        · rw [if_pos hE] at h
          by_cases h2000 : 2000 ≤ rest.length
          · rw [if_pos h2000] at h; simp at h
          · rw [if_neg h2000] at h; simp at h
        · rw [if_neg hE] at h
          by_cases h8 : 8 ≤ rest.length
          · rw [if_pos h8] at h
            by_cases hK : t = chK
            · rw [if_pos hK] at h
              by_cases h16 : 16 ≤ rest.length
              · rw [if_pos h16] at h
                obtain ⟨pre, filler, hp, hf⟩ := ih _ _ h
                have hsplit : rest = rest.take 16 ++ rest.drop 16 :=
                  (List.take_append_drop 16 rest).symm
                refine ⟨t :: rest.take 16 ++ pre, filler, ?_, hf⟩
                nth_rewrite 1 [hsplit]
                rw [hp]
                simp
              · rw [if_neg h16] at h; simp at h
            · rw [if_neg hK] at h
              by_cases hZ : t = chZ
              · rw [if_pos hZ] at h
                simp only [Except.ok.injEq] at h
                subst hZ
                refine ⟨[], rest.take 8, ?_, by simp; omega⟩
                rw [← h]
                simp
              · rw [if_neg hZ] at h
                obtain ⟨pre, filler, hp, hf⟩ := ih _ _ h
                have hsplit : rest = rest.take 8 ++ rest.drop 8 :=
                  (List.take_append_drop 8 rest).symm
                refine ⟨t :: rest.take 8 ++ pre, filler, ?_, hf⟩
                nth_rewrite 1 [hsplit]
                rw [hp]
                simp
          · rw [if_neg h8] at h; simp at h

lemma waitConnectionComplete_ok (l rem : List Nat)
    (h : waitConnectionComplete l = .ok rem) :
    ∃ pre filler, l = pre ++ chZ :: (filler ++ rem) ∧ filler.length = 8 :=
  drainFuel_ok_decomp (l.length + 1) l rem h

lemma sendDatabase_ok (db : Option (List Nat)) (input rem : List Nat) (ws : List Write)
    (h : sendDatabase db input = .ok (rem, ws)) :
    countOp 1 ws = 0 ∧ countOp 1000 ws = 0 ∧ ∃ c, input = c ++ rem := by
  cases db with
  | none =>
    simp [sendDatabase] at h
    obtain ⟨h1, h2⟩ := h
    subst h1; subst h2
    exact ⟨rfl, rfl, [], rfl⟩
  | some name =>
    rw [sendDatabase.eq_def] at h
    cases input with
    | nil => simp at h
    | cons r rest =>
      dsimp only at h
      by_cases hr : r = chN
      · rw [if_pos hr] at h
        simp only [Except.ok.injEq, Prod.mk.injEq] at h
        obtain ⟨h1, h2⟩ := h
        subst h1; subst h2
        subst hr
        exact ⟨by simp [countOp, Write.opcodeOf], by simp [countOp, Write.opcodeOf], [chN], rfl⟩
      · rw [if_neg hr] at h
        by_cases he : r = chE
        · rw [if_pos he] at h; simp at h
        · rw [if_neg he] at h; simp at h

lemma secureSession_ok (lvl : Nat) (input rem : List Nat) (tls : Bool) (ws : List Write)
    (h : secureSession lvl input = .ok (tls, rem, ws)) :
    countOp 1 ws = 0 ∧ countOp 1000 ws = 0 ∧ ∃ c, input = c ++ rem := by
  rw [secureSession.eq_def] at h
  cases input with
  | nil => simp at h
  | cons r rest =>
    dsimp only at h
    by_cases hr : r = chN
    · rw [if_pos hr] at h
      simp only [Except.ok.injEq, Prod.mk.injEq] at h
      obtain ⟨h1, h2, h3⟩ := h
      subst h2; subst h3
      exact ⟨by simp [countOp, Write.opcodeOf], by simp [countOp, Write.opcodeOf], [r], rfl⟩
    · rw [if_neg hr] at h
      by_cases hs : r = chS
      · rw [if_pos hs] at h
        simp only [Except.ok.injEq, Prod.mk.injEq] at h
        obtain ⟨h1, h2, h3⟩ := h
        subst h2; subst h3
        exact ⟨by simp [countOp, Write.opcodeOf], by simp [countOp, Write.opcodeOf], [r], rfl⟩
      · by_cases he : r = chE
        · rw [if_neg hs, if_pos he] at h; simp at h
        · rw [if_neg hs, if_neg he] at h; simp at h

lemma authRespond_ok (cfg : Config) (code : Nat) (input rem : List Nat) (ws : List Write)
    (h : authRespond cfg code input = .ok (rem, ws)) :
    (∀ op, countOp op ws = 0) ∧ ∃ c, input = c ++ rem := by
  rw [authRespond.eq_def] at h
  by_cases h0 : code = 0
  · rw [if_pos h0] at h
    simp only [Except.ok.injEq, Prod.mk.injEq] at h
    obtain ⟨h1, h2⟩ := h
    subst h1; subst h2
    exact ⟨fun op => rfl, [], rfl⟩
  · rw [if_neg h0] at h
    by_cases h3 : code = 3
    · rw [if_pos h3] at h
      simp only [Except.ok.injEq, Prod.mk.injEq] at h
      obtain ⟨h1, h2⟩ := h
      subst h1; subst h2
      exact ⟨fun op => by simp [countOp, Write.opcodeOf], [], rfl⟩
    · rw [if_neg h3] at h
      by_cases h5 : code = 5
      · rw [if_pos h5] at h
        cases input with
        | nil => simp at h
        | cons s1 t =>
          cases t with
          | nil => simp at h
          | cons s2 rest =>
            simp only [Except.ok.injEq, Prod.mk.injEq] at h
            obtain ⟨h1, h2⟩ := h
            subst h1; subst h2
            exact ⟨fun op => by simp [countOp, Write.opcodeOf], [s1, s2], rfl⟩
      · rw [if_neg h5] at h
        by_cases h6 : code = 6
        · rw [if_pos h6] at h
          cases input with
          | nil => simp at h
          | cons s1 t =>
            cases t with
            | nil => simp at h
            | cons s2 rest =>
              simp only [Except.ok.injEq, Prod.mk.injEq] at h
              obtain ⟨h1, h2⟩ := h
              subst h1; subst h2
              exact ⟨fun op => by simp [countOp, Write.opcodeOf], [s1, s2], rfl⟩
        · rw [if_neg h6] at h; simp at h

lemma authenticate_ok (cfg : Config) (input rem : List Nat) (ws : List Write)
    (h : authenticate cfg input = .ok (rem, ws)) :
    (∀ op, countOp op ws = 0) ∧ ∃ c, input = c ++ rem := by
  rw [authenticate.eq_def] at h
  cases input with
  | nil => simp at h
  | cons b0 r0 =>
    dsimp only at h
    have hAfter : ∀ (b : Nat) (r : List Nat),
        authAfterType cfg b r = .ok (rem, ws) →
        (∀ op, countOp op ws = 0) ∧ ∃ c, b :: r = c ++ rem := by
      intro b r hb
      rw [authAfterType.eq_def] at hb
      by_cases hR : b = chR
      · rw [if_pos hR] at hb
        rcases r with _ | ⟨c1, _ | ⟨c2, _ | ⟨c3, _ | ⟨c4, rest⟩⟩⟩⟩
        · simp at hb
        · simp at hb
        · simp at hb
        · simp at hb
        · obtain ⟨hcnt, c, hc⟩ := authRespond_ok cfg _ rest rem ws hb
          exact ⟨hcnt, b :: c1 :: c2 :: c3 :: c4 :: c, by simp [hc]⟩
      · rw [if_neg hR] at hb; simp at hb
    by_cases hN : b0 = chN
    · rw [if_pos hN] at h
      cases r0 with
      | nil => simp at h
      | cons b1 r1 =>
        obtain ⟨hcnt, c, hc⟩ := hAfter b1 r1 h
        exact ⟨hcnt, b0 :: c, by simp [← hc]⟩
    · rw [if_neg hN] at h
      obtain ⟨hcnt, c, hc⟩ := hAfter b0 r0 h
      exact ⟨hcnt, c, hc⟩

lemma sendMetadata_ok (cfg : Config) (hv p1 p2 : Nat) (input rem : List Nat)
    (ws : List Write)
    (hhv : hv = 2 ∨ hv = 3 ∨ hv = 4 ∨ hv = 5 ∨ hv = 6)
    (h : sendMetadata cfg hv p1 p2 input = .ok (rem, ws)) :
    countOp 1 ws = 0 ∧ countOp 1000 ws = 1 ∧ ∃ c, input = c ++ rem := by
  rcases hhv with rfl | rfl | rfl | rfl | rfl <;>
    (simp only [sendMetadata, sendHandshakeVersion2, sendHandshakeVersion4] at h;
     norm_num at h;
     obtain ⟨hws, hin⟩ := runSteps_ok _ _ _ _ h;
     subst hws;
     refine ⟨?_, ?_, List.replicate _ chN, hin⟩) <;>
    cases hopt : cfg.pgOptions <;>
      simp [steps2, steps4, effectiveWrites, countOp, Write.opcodeOf, hopt]

lemma startup_ok_decomp (cfg : Config) (input : List Nat) (res : StartupOk)
    (h : startup cfg input = .ok res) :
    ∃ hv p2s iA wsA iB wsB p1 p2 tls iC wsC iD wsD iE wsE iF,
      negotiateHandshake 6 input = .ok (hv, p2s, iA, wsA) ∧
      sendDatabase cfg.database iA = .ok (iB, wsB) ∧
      setNextDataProtocol p2s = some (p1, p2) ∧
      secureSession cfg.securityLevel iB = .ok (tls, iC, wsC) ∧
      sendMetadata cfg hv p1 p2 iC = .ok (iD, wsD) ∧
      authenticate cfg iD = .ok (iE, wsE) ∧
      waitConnectionComplete iE = .ok iF ∧
      res = ⟨hv, p1, p2, tls, wsA ++ (wsB ++ wsC ++ wsD) ++ wsE, iF⟩ := by
  rw [startup] at h
  cases hneg : negotiateHandshake 6 input with
  | error e => rw [hneg] at h; simp at h
  | ok q1 =>
    obtain ⟨hv, p2s, iA, wsA⟩ := q1
    rw [hneg] at h
    dsimp only at h
    rw [sendHandshakeInfo] at h
    cases hdb : sendDatabase cfg.database iA with
    | error e => rw [hdb] at h; simp at h
    | ok q2 =>
      obtain ⟨iB, wsB⟩ := q2
      rw [hdb] at h
      dsimp only at h
      cases hset : setNextDataProtocol p2s with
      | none => rw [hset] at h; simp at h
      | some pq =>
        obtain ⟨p1, p2⟩ := pq
        rw [hset] at h
        dsimp only at h
        cases hssl : secureSession cfg.securityLevel iB with
        | error e => rw [hssl] at h; simp at h
        | ok q3 =>
          obtain ⟨tls, iC, wsC⟩ := q3
          rw [hssl] at h
          dsimp only at h
          cases hmeta : sendMetadata cfg hv p1 p2 iC with
          | error e => rw [hmeta] at h; simp at h
          | ok q4 =>
            obtain ⟨iD, wsD⟩ := q4
            rw [hmeta] at h
            dsimp only at h
            cases hauth : authenticate cfg iD with
            | error e => rw [hauth] at h; simp at h
            | ok q5 =>
              obtain ⟨iE, wsE⟩ := q5
              rw [hauth] at h
              dsimp only at h
              cases hdr : waitConnectionComplete iE with
              | error e => rw [hdr] at h; simp at h
              | ok iF =>
                rw [hdr] at h
                injection h with h2
                refine ⟨hv, p2s, iA, wsA, iB, wsB, p1, p2, tls, iC, wsC, iD, wsD,
                        iE, wsE, iF, ?_, ?_, ?_, ?_, ?_, ?_, ?_, ?_⟩
                · rfl
                · exact hdb
                · exact hset
                · exact hssl
                · exact hmeta
                · exact hauth
                · exact hdr
                · exact h2.symm

lemma wCC_unfold (l : List Nat) :
    waitConnectionComplete l = drainFuel (l.length + 1) l := rfl

/-- C10: on every successful return of `startup`, `protocol1 = 3` and
`protocol2 = 5` exactly: `setNextDataProtocol` runs once per attempt,
always from the sentinel 0 recorded at version acceptance, so the
fallback values 4 and 3 of the 5 → 4 → 3 walk (and the exhausted
failure) are unreachable within a single attempt. -/
theorem protocol_pair_on_success (cfg : Config) (input : List Nat) (res : StartupOk)
    (h : startup cfg input = .ok res) :
    res.protocol1 = 3 ∧ res.protocol2 = 5 := by
  obtain ⟨hv, p2s, iA, wsA, iB, wsB, p1, p2, tls, iC, wsC, iD, wsD, iE, wsE, iF,
          hneg, hdb, hset, hssl, hmeta, hauth, hdr, hres⟩ :=
    startup_ok_decomp cfg input res h
  have hp2s : p2s = 0 := (negotiateHandshake_ok _ _ _ _ _ _ hneg).1
  subst hp2s
  rw [setNextDataProtocol] at hset
  norm_num at hset
  obtain ⟨hp1, hp2⟩ := hset
  subst hres
  dsimp only
  omega

/-- Witness for `protocol_pair_on_success` at a concrete run. -/
theorem protocol_pair_on_success_witness :
    startup exCfg exInput = .ok exRes ∧ exRes.protocol1 = 3 ∧ exRes.protocol2 = 5 := by
  have h : startup exCfg exInput = .ok exRes := by decide
  exact ⟨h, protocol_pair_on_success exCfg exInput exRes h⟩

/-- C3 (amended): a successful run sends one `CLIENT_BEGIN` frame per
negotiation iteration — `1 + mCount input` of them, where `mCount`
counts the server's counter-offers — and exactly one `CLIENT_DONE`. -/
theorem clientBegin_clientDone_counts (cfg : Config) (input : List Nat) (res : StartupOk)
    (h : startup cfg input = .ok res) :
    countOp 1 res.writes = mCount input + 1 ∧ countOp 1000 res.writes = 1 := by
  obtain ⟨hv, p2s, iA, wsA, iB, wsB, p1, p2, tls, iC, wsC, iD, wsD, iE, wsE, iF,
          hneg, hdb, hset, hssl, hmeta, hauth, hdr, hres⟩ :=
    startup_ok_decomp cfg input res h
  obtain ⟨hp2s, hhv6, hlen, hc1, hc1000, -⟩ := negotiateHandshake_ok _ _ _ _ _ _ hneg
  have hhv : hv = 2 ∨ hv = 3 ∨ hv = 4 ∨ hv = 5 ∨ hv = 6 := by tauto
  obtain ⟨hdb1, hdb1000, -⟩ := sendDatabase_ok _ _ _ _ hdb
  obtain ⟨hss1, hss1000, -⟩ := secureSession_ok _ _ _ _ _ hssl
  obtain ⟨hm1, hm1000, -⟩ := sendMetadata_ok _ _ _ _ _ _ _ hhv hmeta
  obtain ⟨hacnt, -⟩ := authenticate_ok _ _ _ _ hauth
  subst hres
  dsimp only
  simp only [countOp_append]
  rw [hc1, hlen, hdb1, hss1, hm1, hdb1000, hss1000, hm1000, hacnt 1, hacnt 1000, hc1000]
  omega

/-- Witness for `clientBegin_clientDone_counts` at a concrete run. -/
theorem clientBegin_clientDone_counts_witness :
    startup exCfg exInput = .ok exRes ∧
    countOp 1 exRes.writes = mCount exInput + 1 ∧ countOp 1000 exRes.writes = 1 := by
  have h : startup exCfg exInput = .ok exRes := by decide
  exact ⟨h, clientBegin_clientDone_counts exCfg exInput exRes h⟩

/-- C3 (counterexample): a successful connection attempt in which the
server counter-offers version 2 contains two `CLIENT_BEGIN` frames,
so "exactly one `CLIENT_BEGIN` per attempt" fails as stated. -/
theorem clientBegin_twice_counterexample :
    (startup exCfg inputCounterOffer).map (fun r => countOp 1 r.writes) = .ok 2 := by
  decide

/-- C7: for every frame of a successful run, the first four wire bytes
parsed as a big-endian int32 equal the total byte length of the frame
(the length field counts itself, the opcode and the body). -/
theorem frame_length_prefix (cfg : Config) (input : List Nat) (res : StartupOk)
    (_h : startup cfg input = .ok res) (w : Write) (_hw : w ∈ res.writes)
    (hlen : w.wire.length < 4294967296) :
    beInt32 (w.wire.take 4) = w.wire.length := by
  have hl : w.wire.length = w.payload.length + 4 := by
    simp [Write.wire, packInt]
  have ht : w.wire.take 4 = packInt (w.payload.length + 4) := by
    rw [Write.wire]
    simp [packInt]
  rw [hl, ht]
  have hb := beInt32_packInt_append (w.payload.length + 4) [] (by rw [hl] at hlen; omega)
  simpa using hb

/-- Witness for `frame_length_prefix` at a concrete run and frame. -/
theorem frame_length_prefix_witness :
    beInt32 ((Write.frame 1 (packShort 6)).wire.take 4) =
      (Write.frame 1 (packShort 6)).wire.length := by
  have h : startup exCfg exInput = .ok exRes := by decide
  exact frame_length_prefix exCfg exInput exRes h _ (by decide) (by decide)

/-- C8: on every successful return of `startup` the bytes handed back
as `remainingBuffer` are exactly the tail of the server's byte stream
after the ready-for-query message (`Z` plus its 8 filler bytes); all
bytes before that point were consumed by the handshake. -/
theorem remaining_buffer_tail_after_ready (cfg : Config) (input : List Nat)
    (res : StartupOk) (h : startup cfg input = .ok res) :
    ∃ pre filler, input = pre ++ chZ :: (filler ++ res.remainingBuffer) ∧
      filler.length = 8 := by
  obtain ⟨hv, p2s, iA, wsA, iB, wsB, p1, p2, tls, iC, wsC, iD, wsD, iE, wsE, iF,
          hneg, hdb, hset, hssl, hmeta, hauth, hdr, hres⟩ :=
    startup_ok_decomp cfg input res h
  obtain ⟨-, hhv6, -, -, -, c1, hc1, -⟩ := negotiateHandshake_ok _ _ _ _ _ _ hneg
  have hhv : hv = 2 ∨ hv = 3 ∨ hv = 4 ∨ hv = 5 ∨ hv = 6 := by tauto
  obtain ⟨-, -, c2, hc2⟩ := sendDatabase_ok _ _ _ _ hdb
  obtain ⟨-, -, c3, hc3⟩ := secureSession_ok _ _ _ _ _ hssl
  obtain ⟨-, -, c4, hc4⟩ := sendMetadata_ok _ _ _ _ _ _ _ hhv hmeta
  obtain ⟨-, c5, hc5⟩ := authenticate_ok _ _ _ _ hauth
  obtain ⟨pre, filler, hp, hf⟩ := waitConnectionComplete_ok _ _ hdr
  subst hres
  dsimp only
  refine ⟨c1 ++ c2 ++ c3 ++ c4 ++ c5 ++ pre, filler, ?_, hf⟩
  rw [hc1, hc2, hc3, hc4, hc5, hp]
  simp [List.append_assoc]

/-- Witness for `remaining_buffer_tail_after_ready` at a concrete run. -/
theorem remaining_buffer_witness :
    ∃ pre filler, exInput = pre ++ chZ :: (filler ++ exRes.remainingBuffer) ∧
      filler.length = 8 := by
  have h : startup exCfg exInput = .ok exRes := by decide
  exact remaining_buffer_tail_after_ready exCfg exInput exRes h

/-- C5: for every negotiated version, a successful metadata phase
sends exactly the version-specific frame sequence of the spec
(`specMetadataFrames`), with `CLIENT_DONE` (opcode 1000, empty body)
last, and reads exactly one `N` acknowledgment per frame except
`CLIENT_DONE`, for which nothing is read. -/
theorem metadata_stream_matches_spec (cfg : Config) (hv p1 p2 : Nat)
    (input rem : List Nat) (ws : List Write)
    (hhv : hv = 2 ∨ hv = 3 ∨ hv = 4 ∨ hv = 5 ∨ hv = 6)
    (h : sendMetadata cfg hv p1 p2 input = .ok (rem, ws)) :
    ws = specMetadataFrames cfg hv p1 p2 ∧
    ws.getLast? = some (Write.frame 1000 []) ∧
    input = List.replicate (ws.length - 1) chN ++ rem := by
  rcases hhv with rfl | rfl | rfl | rfl | rfl <;>
    (simp only [sendMetadata, sendHandshakeVersion2, sendHandshakeVersion4] at h;
     norm_num at h;
     obtain ⟨hws, hin⟩ := runSteps_ok _ _ _ _ h;
     subst hws) <;>
    cases hopt : cfg.pgOptions <;>
      refine ⟨?_, ?_, ?_⟩ <;>
        simp [steps2, steps4, effectiveWrites, ackEff, specMetadataFrames, hopt, hin]

/-- Witness for `metadata_stream_matches_spec` at version 6. -/
theorem metadata_stream_matches_spec_witness :
    (sendMetadata exCfg 6 3 5 (List.replicate 9 chN ++ [5]) =
      .ok ([5], specMetadataFrames exCfg 6 3 5)) ∧
    (specMetadataFrames exCfg 6 3 5).getLast? = some (Write.frame 1000 []) ∧
    List.replicate 9 chN ++ [5] =
      List.replicate ((specMetadataFrames exCfg 6 3 5).length - 1) chN ++ [5] := by
  have h : sendMetadata exCfg 6 3 5 (List.replicate 9 chN ++ [5]) =
      .ok ([5], specMetadataFrames exCfg 6 3 5) := by decide
  have h2 := metadata_stream_matches_spec exCfg 6 3 5 _ _ _ (by decide) h
  exact ⟨h, h2.2.1, h2.2.2⟩

/-- C6: for authentication code 5 (and code 6 with SHA-256 in place of
MD5), the driver reads the 2-byte salt, digests salt ∥ password,
base64-encodes, strips the trailing `=` padding and sends the result
null-terminated in a `len(int32 BE) ∥ body` frame with no opcode; the
last two conjuncts pin down the base64 encoder and the `=`-stripping
on a concrete digest. -/
theorem salted_auth_credential (cfg : Config) (s1 s2 : Nat) (rest : List Nat) :
    authenticate cfg (chR :: 0 :: 0 :: 0 :: 5 :: s1 :: s2 :: rest) =
      .ok (rest, [Write.raw
        (stripTrailingEq (base64Encode (cfg.md5 ([s1, s2] ++ cfg.password))) ++ [0])]) ∧
    authenticate cfg (chR :: 0 :: 0 :: 0 :: 6 :: s1 :: s2 :: rest) =
      .ok (rest, [Write.raw
        (stripTrailingEq (base64Encode (cfg.sha256 ([s1, s2] ++ cfg.password))) ++ [0])]) ∧
    (∀ b : List Nat, (Write.raw b).wire = packInt (b.length + 4) ++ b) ∧
    base64Encode [1, 2, 3, 4] = strBytes "AQIDBA==" ∧
    stripTrailingEq (strBytes "AQIDBA==") = strBytes "AQIDBA" := by
  refine ⟨?_, ?_, fun b => rfl, by decide, by decide⟩ <;>
    simp [authenticate, authAfterType, authRespond, chR, chN, beInt32]

/-- C9 (amended): in the completion drain a notice (`N`) consumes only
a 4-byte length after the type byte — no 8-byte filler discard — while
the 8-byte filler discard is performed for every type other than `R`,
`N`, `E` before the type-specific handling: `Z` terminates after its
filler, `K` reads its 4-byte pid and 4-byte key after the filler and
continues, and unknown types just continue. -/
theorem drain_filler_discipline (t y1 y2 y3 y4 x1 x2 x3 x4 x5 x6 x7 x8
    k1 k2 k3 k4 k5 k6 k7 k8 : Nat)
    (rest : List Nat) (h82 : t ≠ chR) (h78 : t ≠ chN) (h69 : t ≠ chE)
    (h75 : t ≠ chK) (h90 : t ≠ chZ) :
    waitConnectionComplete (chN :: y1 :: y2 :: y3 :: y4 :: rest) =
      waitConnectionComplete rest ∧
    waitConnectionComplete (chZ :: x1 :: x2 :: x3 :: x4 :: x5 :: x6 :: x7 :: x8 :: rest) =
      .ok rest ∧
    waitConnectionComplete (chK :: x1 :: x2 :: x3 :: x4 :: x5 :: x6 :: x7 :: x8 ::
        k1 :: k2 :: k3 :: k4 :: k5 :: k6 :: k7 :: k8 :: rest) =
      waitConnectionComplete rest ∧
    waitConnectionComplete (t :: x1 :: x2 :: x3 :: x4 :: x5 :: x6 :: x7 :: x8 :: rest) =
      waitConnectionComplete rest := by
  refine ⟨?_, ?_, ?_, ?_⟩
  · rw [wCC_unfold, drainFuel.eq_def]
    dsimp only
    rw [if_pos (show chN = chR ∨ chN = chN from Or.inr rfl)]
    rw [if_pos (show 4 ≤ (y1 :: y2 :: y3 :: y4 :: rest).length by simp)]
    have hd : (y1 :: y2 :: y3 :: y4 :: rest).drop 4 = rest := rfl
    rw [hd]
    exact drainFuel_irrelevant _ _ (by simp only [List.length_cons]; omega)
  · rw [wCC_unfold, drainFuel.eq_def]
    dsimp only
    rw [if_neg (show ¬(chZ = chR ∨ chZ = chN) by decide)]
    rw [if_neg (show ¬chZ = chE by decide)]
    rw [if_pos (show 8 ≤ (x1 :: x2 :: x3 :: x4 :: x5 :: x6 :: x7 :: x8 :: rest).length by simp)]
    rw [if_neg (show ¬chZ = chK by decide), if_pos rfl]
    rfl
  · rw [wCC_unfold, drainFuel.eq_def]
    dsimp only
    rw [if_neg (show ¬(chK = chR ∨ chK = chN) by decide)]
    rw [if_neg (show ¬chK = chE by decide)]
    rw [if_pos (show 8 ≤ (x1 :: x2 :: x3 :: x4 :: x5 :: x6 :: x7 :: x8 ::
        k1 :: k2 :: k3 :: k4 :: k5 :: k6 :: k7 :: k8 :: rest).length by simp)]
    rw [if_pos rfl]
    rw [if_pos (show 16 ≤ (x1 :: x2 :: x3 :: x4 :: x5 :: x6 :: x7 :: x8 ::
        k1 :: k2 :: k3 :: k4 :: k5 :: k6 :: k7 :: k8 :: rest).length by simp)]
    have hd : (x1 :: x2 :: x3 :: x4 :: x5 :: x6 :: x7 :: x8 ::
        k1 :: k2 :: k3 :: k4 :: k5 :: k6 :: k7 :: k8 :: rest).drop 16 = rest := rfl
    rw [hd]
    exact drainFuel_irrelevant _ _ (by simp only [List.length_cons]; omega)
  · rw [wCC_unfold, drainFuel.eq_def]
    dsimp only
    rw [if_neg (show ¬(t = chR ∨ t = chN) by tauto)]
    rw [if_neg h69]
    rw [if_pos (show 8 ≤ (x1 :: x2 :: x3 :: x4 :: x5 :: x6 :: x7 :: x8 :: rest).length by simp)]
    rw [if_neg h75, if_neg h90]
    have hd : (x1 :: x2 :: x3 :: x4 :: x5 :: x6 :: x7 :: x8 :: rest).drop 8 = rest := rfl
    rw [hd]
    exact drainFuel_irrelevant _ _ (by simp only [List.length_cons]; omega)

/-- Witness for `drain_filler_discipline` at concrete bytes. -/
theorem drain_filler_discipline_witness :
    waitConnectionComplete (chN :: 9 :: 9 :: 9 :: 9 :: [42]) =
      waitConnectionComplete [42] ∧
    waitConnectionComplete (chZ :: 1 :: 2 :: 3 :: 4 :: 5 :: 6 :: 7 :: 8 :: [42]) =
      .ok [42] ∧
    waitConnectionComplete (chK :: 1 :: 2 :: 3 :: 4 :: 5 :: 6 :: 7 :: 8 ::
        11 :: 12 :: 13 :: 14 :: 15 :: 16 :: 17 :: 18 :: [42]) =
      waitConnectionComplete [42] ∧
    waitConnectionComplete (65 :: 1 :: 2 :: 3 :: 4 :: 5 :: 6 :: 7 :: 8 :: [42]) =
      waitConnectionComplete [42] :=
  drain_filler_discipline 65 9 9 9 9 1 2 3 4 5 6 7 8 11 12 13 14 15 16 17 18 [42]
    (by decide) (by decide) (by decide) (by decide) (by decide)

/-- C9 (counterexample): on the stream `N`, four length bytes, then a
complete `Z` message, the implemented drain succeeds, while a drain
that handled notices as the claim states (8 filler bytes plus a 4-byte
length) would run out of input and fail; the notice branch performs no
8-byte filler discard. -/
theorem notice_handling_counterexample :
    waitConnectionComplete [chN, 0, 0, 0, 0, chZ, 0, 0, 0, 0, 0, 0, 0, 0] = .ok [] ∧
    waitConnectionCompleteSpecC9 [chN, 0, 0, 0, 0, chZ, 0, 0, 0, 0, 0, 0, 0, 0] =
      .error .readIncomplete :=
  ⟨by decide, by decide⟩

/-- C1: `secureSession` reacts to the server's one-byte TLS reply
only, ignoring the requested security level — at level 3 an `N` reply
continues in cleartext and the handshake still completes (further
frames, including `CLIENT_DONE`, are sent), and at level 1 an `S`
reply proceeds to the TLS upgrade; neither `TlsRequired` nor
`TlsRefused` exists in the code. -/
theorem secureSession_ignores_security_level :
    (startup cfg3 exInput).map (fun r => (r.tlsUpgraded, countOp 1000 r.writes)) =
      .ok (false, 1) ∧
    (startup cfg1 inputS).map (fun r => r.tlsUpgraded) = .ok true ∧
    secureSession 3 (chN :: [7]) = .ok (false, [7], [Write.frame 11 (packInt 3)]) ∧
    secureSession 1 (chS :: [7]) =
      .ok (true, [7], [Write.frame 11 (packInt 1), Write.frame 12 (packInt 1)]) :=
  ⟨by decide, by decide, by decide, by decide⟩

/-- C2: the error branch of the completion drain waits for exactly
2000 bytes — with the spec's own scenario (`E` then a short
null-terminated message and nothing more) it fails with a read
failure, not `ServerError`; when 2000 bytes are available it removes
every NUL byte (not only trailing ones) and fails with the text. -/
lemma removeNulls_append (a b : List Nat) :
    removeNulls (a ++ b) = removeNulls a ++ removeNulls b := by
  simp [removeNulls, List.filter_append]

lemma removeNulls_replicate_zero (n : Nat) :
    removeNulls (List.replicate n 0) = [] := by
  induction n with
  | zero => rfl
  | succ k ih =>
    simp only [removeNulls, List.replicate_succ, List.filter] at ih ⊢
    exact ih

lemma wCC_error_serverError (msg : List Nat) (h : msg.length = 2000) :
    waitConnectionComplete (chE :: msg) = .error (.serverError (removeNulls msg)) := by
  rw [wCC_unfold, drainFuel.eq_def]
  dsimp only
  rw [if_neg (show ¬(chE = chR ∨ chE = chN) by decide)]
  rw [if_pos rfl]
  rw [if_pos (show 2000 ≤ msg.length by omega)]
  rw [List.take_of_length_le (by omega)]

/-- C2: the error branch of the completion drain waits for exactly
2000 bytes — with the spec's own scenario (`E` then a short
null-terminated message and nothing more) it fails with a read
failure, not `ServerError`; when 2000 bytes are available it removes
every NUL byte (not only trailing ones) and fails with the text. -/
theorem errorDrain_requires_exactly_2000_bytes :
    waitConnectionComplete (chE :: (strBytes "FATAL: database does not exist" ++ [0])) =
      .error .readIncomplete ∧
    waitConnectionComplete (chE :: (strBytes "FATAL: database does not exist" ++ [0]
        ++ List.replicate 1969 0)) =
      .error (.serverError (strBytes "FATAL: database does not exist")) ∧
    waitConnectionComplete (chE :: (strBytes "AB" ++ [0] ++ strBytes "CD"
        ++ List.replicate 1995 0)) =
      .error (.serverError (strBytes "ABCD")) := by
  refine ⟨by decide, ?_, ?_⟩
  · rw [wCC_error_serverError _ (by
      simp only [List.length_append, List.length_replicate, List.length_cons,
        List.length_nil]
      norm_num [show (strBytes "FATAL: database does not exist").length = 30 from by decide])]
    rw [removeNulls_append, removeNulls_append,
        show removeNulls (strBytes "FATAL: database does not exist") =
          strBytes "FATAL: database does not exist" from by decide,
        show removeNulls [0] = [] from rfl, removeNulls_replicate_zero]
    simp
  · rw [wCC_error_serverError _ (by
      simp only [List.length_append, List.length_replicate, List.length_cons,
        List.length_nil]
      norm_num [show (strBytes "AB").length = 2 from by decide,
        show (strBytes "CD").length = 2 from by decide])]
    rw [removeNulls_append, removeNulls_append, removeNulls_append,
        show removeNulls (strBytes "AB") = strBytes "AB" from by decide,
        show removeNulls (strBytes "CD") = strBytes "CD" from by decide,
        show removeNulls [0] = [] from rfl, removeNulls_replicate_zero]
    decide

/-- C4 (counterexample): seven consecutive `M 5` counter-offers
followed by acceptance drive eight negotiation iterations — more than
the claimed bound of six — and the counter-offer to 5 at version 5
does not strictly lower the version; the run still succeeds. -/
theorem negotiation_exceeds_bound_counterexample :
    negotiateHandshake 6
        [chM, 53, chM, 53, chM, 53, chM, 53, chM, 53, chM, 53, chM, 53, chN] =
      .ok (5, 0, [],
        Write.frame 1 (packShort 6) :: List.replicate 7 (Write.frame 1 (packShort 5))) ∧
    (Write.frame 1 (packShort 6) :: List.replicate 7 (Write.frame 1 (packShort 5))).length = 8 :=
  ⟨by decide, by decide⟩

/-- C4 (amended): the negotiation loop performs one iteration plus one
per counter-offer — so it terminates on every finite stream, with the
iteration count bounded by the input length but not by any constant —
and a counter-offer digit outside `{2,3,4,5}` fails with
`UnsupportedVersion`. -/
theorem negotiation_iteration_structure :
    (∀ (v : Nat) (input : List Nat) (hv p2s : Nat) (rem : List Nat) (ws : List Write),
        negotiateHandshake v input = .ok (hv, p2s, rem, ws) →
        ws.length = mCount input + 1 ∧ ws.length ≤ input.length) ∧
    (∀ (v d : Nat) (rest : List Nat), ¬(d = 50 ∨ d = 51 ∨ d = 52 ∨ d = 53) →
        negotiateHandshake v (chM :: d :: rest) = .error .unsupportedVersion) := by
  constructor
  · intro v input hv p2s rem ws h
    obtain ⟨-, -, hlen, -, -, c, hc, hclen⟩ := negotiateHandshake_ok v input hv p2s rem ws h
    refine ⟨hlen, ?_⟩
    have hlen2 : input.length = c.length + rem.length := by rw [hc]; simp
    omega
  · intro v d rest hd
    rw [negotiateHandshake.eq_def]
    norm_num [chM, chN, chE]
    intro hcon
    exact absurd hcon hd

/-- Witness for `negotiation_iteration_structure` at concrete inputs. -/
theorem negotiation_iteration_structure_witness :
    ([Write.frame 1 (packShort 6)].length = mCount [chN] + 1 ∧
      [Write.frame 1 (packShort 6)].length ≤ ([chN] : List Nat).length) ∧
    negotiateHandshake 6 [chM, 54] = .error .unsupportedVersion :=
  ⟨negotiation_iteration_structure.1 6 [chN] 6 0 [] _ (by decide),
   negotiation_iteration_structure.2 6 54 [] (by decide)⟩

end Nz
